import Mathlib

/-!
# Verification of the skill-gap analysis application

A shallow embedding of the core logic of `app.py` (skill parsing, job
lookup, gap analysis, duration estimation, course recommendation) and
proofs of the specified properties.

Python strings are modelled as `List Char`; `str.lower` as a character-wise
lower-casing, `str.strip` as dropping whitespace on both ends, and
`str.split(",")` as splitting on the comma character.  Numbers (estimated
hours, hours per day, ratings) are modelled as rationals, and Python's
`round(x, 1)` as exact round-half-to-even on rationals.  Pandas dataframes
are modelled as lists of records in file order; boolean-mask filtering
preserves that order, and `.iloc[0]` is `List.head?`.
-/

namespace SkillGap

/-- Convert a Lean string literal to the `List Char` string model. -/
def chars (s : String) : List Char :=
  s.toList

/-- Model of Python `str.lower()` (character-wise lower-casing). -/
def lowerStr (s : List Char) : List Char :=
  s.map Char.toLower

/-- Model of Python `str.strip()`: drop whitespace at both ends. -/
def trimStr (s : List Char) : List Char :=
  (((s.dropWhile Char.isWhitespace).reverse).dropWhile Char.isWhitespace).reverse

/-- Model of Python `text.split(",")`: split on commas, keeping empty pieces.
`splitComma [] = [[]]`, matching `"".split(",") == [""]`. -/
def splitComma : List Char → List (List Char)
  | [] => [[]]
  | c :: rest =>
    if c = ',' then [] :: splitComma rest
    else
      match splitComma rest with
      | [] => [[c]]
      | t :: ts => (c :: t) :: ts

/-- Boolean prefix test on character lists. -/
def startsWith : List Char → List Char → Bool
  | [], _ => true
  | _ :: _, [] => false
  | a :: s, b :: t => a == b && startsWith s t

/-- Model of the Python containment test `small in big` on strings
(contiguous substring). -/
def substrOf : List Char → List Char → Bool
  | small, [] => small.isEmpty
  | small, c :: rest => startsWith small (c :: rest) || substrOf small rest

/-- Embedding of `parse_skills` (app.py lines 13-16): a blank (or missing)
input yields `[]`; otherwise the text is split on commas and every piece is
stripped and lower-cased.  Empty pieces are kept. -/
def parse_skills (skill_text : List Char) : List (List Char) :=
  if trimStr skill_text = [] then []
  else (splitComma skill_text).map (fun s => lowerStr (trimStr s))

/-- A row of `job_details.csv`: columns `Job Title` and `Skill Requirements`. -/
structure Job where
  title : List Char
  reqSkills : List Char
  deriving Repr, DecidableEq

/-- Job lookup of `find_missing_skills` (app.py lines 21-30): filter the
dataframe by lower-cased exact title match; if that is empty, filter by
containment of the lower-cased query in the lower-cased title; take the
first remaining row (`iloc[0]`), if any.

The containment step models pandas `str.contains` as plain substring
containment; the real call compiles the query as a regular expression
(`regex=True` default), which agrees with substring containment whenever
the query has no regex metacharacters. -/
def findJob (jobs : List Job) (target : List Char) : Option Job :=
  let exact := jobs.filter (fun j => lowerStr j.title == lowerStr target)
  let rows :=
    if exact.isEmpty then
      jobs.filter (fun j => substrOf (lowerStr target) (lowerStr j.title))
    else exact
  rows.head?

/-- Embedding of `find_missing_skills` (app.py lines 19-37): resolve the
job, parse its required skills and the user's current skills, and split the
required skills into matched and missing by membership in the user's
skills.  Returns `(job title, required, matched, missing)`, or `none` when
the lookup fails (the Python function returns four `None`s). -/
def find_missing_skills (jobs : List Job) (target_job current_skills : List Char) :
    Option (List Char × List (List Char) × List (List Char) × List (List Char)) :=
  match findJob jobs target_job with
  | none => none
  | some j =>
    let required_skills := parse_skills j.reqSkills
    let user_skills := parse_skills current_skills
    let missing := required_skills.filter (fun s => ¬ s ∈ user_skills)
    let matched := required_skills.filter (fun s => s ∈ user_skills)
    some (j.title, required_skills, matched, missing)

/-- Round a rational to the nearest integer, ties to even (the semantics of
Python's built-in `round`). -/
def rndHalfEven (q : ℚ) : ℤ :=
  let f : ℤ := ⌊q⌋
  if q - f < 1/2 then f
  else if (1:ℚ)/2 < q - f then f + 1
  else if f % 2 = 0 then f else f + 1

/-- Model of Python `round(x, 1)`: round to one decimal place. -/
def round1 (q : ℚ) : ℚ :=
  (rndHalfEven (q * 10) : ℚ) / 10

/-- A row of `skills_completion_time.csv`: columns `Skill Name` and
`Estimated Completion Time (hours)`. -/
structure SkillRow where
  name : List Char
  hours : ℚ
  deriving Repr, DecidableEq

/-- The duration lookup inside `calculate_total_duration` (app.py line 45):
filter the table by lower-cased exact name match and take the hours of the
first remaining row, if any. -/
def lookupHours (table : List SkillRow) (skill : List Char) : Option ℚ :=
  ((table.filter (fun r => lowerStr r.name == lowerStr skill)).head?).map (·.hours)

/-- The skill-hours accumulator is a Python dict: an association list with
unique keys in insertion order. -/
abbrev SkillDict : Type :=
  List (List Char × Option ℚ)

/-- Python dict assignment `d[k] = v`: update in place when the key exists,
otherwise append. -/
def dictInsert (d : SkillDict) (k : List Char) (v : Option ℚ) : SkillDict :=
  if d.any (fun p => p.1 == k) then
    d.map (fun p => if p.1 == k then (k, v) else p)
  else d ++ [(k, v)]

/-- Python dict lookup `d.get(k)`. -/
def dictFind (d : SkillDict) (k : List Char) : Option (Option ℚ) :=
  (d.find? (fun p => p.1 == k)).map (·.2)

/-- One iteration of the loop in `calculate_total_duration` (app.py lines
44-51): look the skill up; when found add its hours to the running total
and record them, otherwise record `none` (Python `None`). -/
def durStep (table : List SkillRow) (acc : ℚ × SkillDict) (skill : List Char) :
    ℚ × SkillDict :=
  match lookupHours table skill with
  | some h => (acc.1 + h, dictInsert acc.2 skill (some h))
  | none => (acc.1, dictInsert acc.2 skill none)

/-- Embedding of `calculate_total_duration` (app.py lines 40-54): sum the
known hours of the missing skills, divide by `hours_per_day` when it is
positive (otherwise keep the raw hours), round to one decimal place, and
return the per-skill hours dict alongside. -/
def calculate_total_duration (table : List SkillRow) (missing_skills : List (List Char))
    (hours_per_day : ℚ) : ℚ × SkillDict :=
  let acc := missing_skills.foldl (durStep table) (0, [])
  let total_days := if 0 < hours_per_day then acc.1 / hours_per_day else acc.1
  (round1 total_days, acc.2)

/-- A row of `professional_courses.csv`. -/
structure PCourse where
  title : List Char
  link : List Char
  provider : List Char
  platform : List Char
  credential : List Char
  duration : List Char
  skills : List Char
  deriving Repr, DecidableEq

/-- A row of `foundation_courses.csv` (has a `rating` column in addition). -/
structure FCourse where
  title : List Char
  link : List Char
  provider : List Char
  platform : List Char
  credential : List Char
  duration : List Char
  skills : List Char
  rating : ℚ
  deriving Repr, DecidableEq

/-- A scored professional course, as built by
`suggest_professional_courses` (app.py lines 72-81). -/
structure PRec where
  title : List Char
  link : List Char
  provider : List Char
  platform : List Char
  credential : List Char
  duration : List Char
  covered_skills : List (List Char)
  total_covered : ℕ
  deriving Repr, DecidableEq

/-- A scored foundation course, as built by
`suggest_foundation_courses` (app.py lines 102-112). -/
structure FRec where
  title : List Char
  link : List Char
  provider : List Char
  platform : List Char
  credential : List Char
  duration : List Char
  rating : ℚ
  covered_skills : List (List Char)
  total_covered : ℕ
  deriving Repr, DecidableEq

/-- `a` may be placed before `b` by the professional sort
(`key=total_covered, reverse=True`): `a`'s key is not smaller. -/
def profBefore (a b : PRec) : Prop :=
  b.total_covered ≤ a.total_covered

instance : DecidableRel profBefore := fun a b =>
  inferInstanceAs (Decidable (b.total_covered ≤ a.total_covered))

/-- Lexicographic order on Python pairs `(total_covered, rating)`. -/
def lexLe (p q : ℕ × ℚ) : Prop :=
  p.1 < q.1 ∨ (p.1 = q.1 ∧ p.2 ≤ q.2)

instance : DecidableRel lexLe := fun p q =>
  inferInstanceAs (Decidable (p.1 < q.1 ∨ (p.1 = q.1 ∧ p.2 ≤ q.2)))

/-- The sort key of the foundation sort (app.py line 114). -/
def fKey (c : FRec) : ℕ × ℚ :=
  (c.total_covered, c.rating)

/-- `a` may be placed before `b` by the foundation sort
(`key=(total_covered, rating), reverse=True`): `a`'s key is not
lexicographically smaller. -/
def fdnBefore (a b : FRec) : Prop :=
  lexLe (fKey b) (fKey a)

instance : DecidableRel fdnBefore := fun a b =>
  inferInstanceAs (Decidable (lexLe (fKey b) (fKey a)))

instance : IsTotal PRec profBefore :=
  ⟨fun a b => Nat.le_total b.total_covered a.total_covered⟩

instance : IsTrans PRec profBefore :=
  ⟨fun _ _ _ hab hbc => le_trans hbc hab⟩

instance : IsTotal FRec fdnBefore := by
  constructor
  intro a b
  unfold fdnBefore lexLe
  rcases lt_trichotomy (fKey b).1 (fKey a).1 with h | h | h
  · exact Or.inl (Or.inl h)
  · rcases le_total (fKey b).2 (fKey a).2 with h2 | h2
    · exact Or.inl (Or.inr ⟨h, h2⟩)
    · exact Or.inr (Or.inr ⟨h.symm, h2⟩)
  · exact Or.inr (Or.inl h)

instance : IsTrans FRec fdnBefore := by
  constructor
  intro a b c hab hbc
  unfold fdnBefore lexLe at hab hbc ⊢
  rcases hab with h1 | ⟨h1e, h1le⟩ <;> rcases hbc with h2 | ⟨h2e, h2le⟩
  · exact Or.inl (lt_trans h2 h1)
  · exact Or.inl (by rw [h2e]; exact h1)
  · exact Or.inl (by rw [← h1e]; exact h2)
  · exact Or.inr ⟨h2e.trans h1e, le_trans h2le h1le⟩

/-- Filter-and-score pass of `suggest_professional_courses` (app.py lines
62-81): keep courses whose lower-cased skills text contains some missing
skill as a substring, then for each compute the precisely covered skills by
token membership. -/
def scoreProfessional (df : List PCourse) (missing_skills : List (List Char)) :
    List PRec :=
  let filtered := df.filter
    (fun c => missing_skills.any (fun skill => substrOf (lowerStr skill) (lowerStr c.skills)))
  filtered.map (fun c =>
    let course_skill_set := parse_skills c.skills
    let covered := missing_skills.filter (fun s => s ∈ course_skill_set)
    ⟨c.title, c.link, c.provider, c.platform, c.credential, c.duration,
      covered, covered.length⟩)

/-- Embedding of `suggest_professional_courses` (app.py lines 58-84):
return `[]` for an empty missing list, otherwise filter, score, stable-sort
descending by `total_covered` (Python `list.sort` is stable, modelled by
`List.insertionSort`), and truncate to `limit`. -/
def suggest_professional_courses (df : List PCourse) (missing_skills : List (List Char))
    (limit : ℕ) : List PRec :=
  if missing_skills.isEmpty then []
  else (List.insertionSort profBefore (scoreProfessional df missing_skills)).take limit

/-- Filter-and-score pass of `suggest_foundation_courses` (app.py lines
92-112). -/
def scoreFoundation (df : List FCourse) (missing_skills : List (List Char)) :
    List FRec :=
  let filtered := df.filter
    (fun c => missing_skills.any (fun skill => substrOf (lowerStr skill) (lowerStr c.skills)))
  filtered.map (fun c =>
    let course_skill_set := parse_skills c.skills
    let covered := missing_skills.filter (fun s => s ∈ course_skill_set)
    ⟨c.title, c.link, c.provider, c.platform, c.credential, c.duration,
      c.rating, covered, covered.length⟩)

/-- Embedding of `suggest_foundation_courses` (app.py lines 88-115): like
the professional variant but sorted descending by the composite key
`(total_covered, rating)`. -/
def suggest_foundation_courses (df : List FCourse) (missing_skills : List (List Char))
    (limit : ℕ) : List FRec :=
  if missing_skills.isEmpty then []
  else (List.insertionSort fdnBefore (scoreFoundation df missing_skills)).take limit

/-- The result rendered by the `POST /` branch of `index` (app.py lines
121-145). -/
structure ResultPayload where
  target_job : List Char
  required : List (List Char)
  matched : List (List Char)
  missing : List (List Char)
  total_days : ℚ
  skill_hours : SkillDict
  hours_per_day : ℚ
  professional_courses : List PRec
  foundation_courses : List FRec
  deriving Repr, DecidableEq

/-- Embedding of the `POST /` branch of `index` (app.py lines 121-145):
run the gap analysis; when `required` is falsy (lookup failed, or the
resolved job's required-skills list is empty) render the job-not-found
error (`none` here); otherwise compute the duration estimate and both
course recommendation lists (limit 4, the Python default). -/
def indexPost (jobs : List Job) (table : List SkillRow) (pdf : List PCourse)
    (fdf : List FCourse) (target_job current_skills : List Char)
    (hours_per_day : ℚ) : Option ResultPayload :=
  match find_missing_skills jobs target_job current_skills with
  | none => none
  | some (_, required, matched, missing) =>
    if required.isEmpty then none
    else
      let td := calculate_total_duration table missing hours_per_day
      some ⟨target_job, required, matched, missing, td.1, td.2, hours_per_day,
        suggest_professional_courses pdf missing 4,
        suggest_foundation_courses fdf missing 4⟩

/-- Total known hours of a list of skills: each occurrence contributes its
looked-up hours, unknown skills contribute 0. -/
def totalHours (table : List SkillRow) (l : List (List Char)) : ℚ :=
  (l.map (fun s => (lookupHours table s).getD 0)).sum

/-- The keys of a skill-hours dict, in insertion order. -/
def dictKeys (d : SkillDict) : List (List Char) :=
  d.map Prod.fst

/-- Sum of the non-null values of a skill-hours dict. -/
def dictValuesSum (d : SkillDict) : ℚ :=
  (d.map (fun p => p.2.getD 0)).sum

/-- Fixture: a one-job dataset (end-to-end scenario 1 of the spec). -/
def jobsEx : List Job :=
  [⟨chars "Data Analyst", chars "sql, excel, python"⟩]

/-- Fixture: a job whose `Skill Requirements` cell is blank. -/
def jobsBlank : List Job :=
  [⟨chars "Data Analyst", chars " "⟩]

/-- Fixture: a two-row duration table. -/
def tableEx : List SkillRow :=
  [⟨chars "sql", 10⟩, ⟨chars "excel", 5⟩]

/-- Fixture: a one-row duration table. -/
def tableSql : List SkillRow :=
  [⟨chars "sql", 10⟩]

/-- Fixture: a professional course whose skills text contains "sql" only
inside the larger token "postgresql". -/
def pdfEx : List PCourse :=
  [⟨chars "Advanced Databases", chars "link", chars "prov", chars "plat",
    chars "cred", chars "6 weeks", chars "PostgreSQL"⟩]

/-! ## Helper lemmas -/

lemma head?_filter {α : Type} (p : α → Bool) (l : List α) :
    (l.filter p).head? = l.find? p := by
  induction l with
  | nil => rfl
  | cons a l ih =>
    by_cases h : p a <;> simp [List.filter_cons, List.find?_cons, h, ih]

lemma splitComma_ne_nil (l : List Char) : splitComma l ≠ [] := by
  induction l with
  | nil => simp [splitComma]
  | cons c rest ih =>
    rw [splitComma]
    split
    · simp
    · cases h : splitComma rest with
      | nil => exact absurd h ih
      | cons t ts => simp [h]

lemma length_splitComma (l : List Char) :
    (splitComma l).length = l.count ',' + 1 := by
  induction l with
  | nil => simp [splitComma]
  | cons c rest ih =>
    rw [splitComma]
    by_cases h : c = ','
    · simp [h, List.count_cons, ih]
    · simp only [if_neg h]
      cases hs : splitComma rest with
      | nil => exact absurd hs (splitComma_ne_nil rest)
      | cons t ts =>
        have := ih
        rw [hs] at this
        simp only [List.length_cons] at this ⊢
        have hc : (c :: rest).count ',' = rest.count ',' := by
          simp [List.count_cons, h]
        omega

/-! ## C5: empty skill tokens -/

/-- C5, counterexample: `parse_skills` does not drop empty tokens; the
input "sql,,excel" parses to a list that contains the empty string. -/
theorem parse_skills_empty_token_cex :
    parse_skills (chars "sql,,excel") = [chars "sql", [], chars "excel"]
    ∧ ([] : List Char) ∈ parse_skills (chars "sql,,excel") := by
  constructor <;> decide

/-- C5, amended: for blank input `parse_skills` returns `[]`; for non-blank
input it returns one token per comma-separated piece — `count ',' + 1` of
them, empty pieces included — so consecutive, leading, or trailing commas
do yield empty-string tokens. -/
theorem parse_skills_amended (t : List Char) (h : trimStr t ≠ []) :
    (parse_skills t).length = t.count ',' + 1
    ∧ (∀ s : List Char, trimStr s = [] → parse_skills s = []) := by
  refine ⟨?_, ?_⟩
  · rw [parse_skills, if_neg h, List.length_map, length_splitComma]
  · intro s hs
    rw [parse_skills, if_pos hs]

/-- C5, witness for the amended theorem at the input "sql,,excel". -/
theorem parse_skills_amended_witness :
    trimStr (chars "sql,,excel") ≠ []
    ∧ ((parse_skills (chars "sql,,excel")).length = (chars "sql,,excel").count ',' + 1
        ∧ (∀ s : List Char, trimStr s = [] → parse_skills s = [])) :=
  ⟨by decide, parse_skills_amended (chars "sql,,excel") (by decide)⟩

/-! ## C1: the matched/missing partition -/

/-- C1: on a resolved job, `matched` and `missing` are the subsequences of
`required` present in resp. absent from the parsed user skills; they
partition `required` (every required skill is in exactly one of the two),
and each preserves the original relative order of `required`. -/
theorem find_missing_skills_partition
    (jobs : List Job) (target current title : List Char)
    (required matched missing : List (List Char))
    (h : find_missing_skills jobs target current = some (title, required, matched, missing)) :
    matched = required.filter (fun s => s ∈ parse_skills current)
    ∧ missing = required.filter (fun s => ¬ s ∈ parse_skills current)
    ∧ (∀ s, s ∈ required ↔ (s ∈ matched ∨ s ∈ missing))
    ∧ (∀ s, ¬ (s ∈ matched ∧ s ∈ missing))
    ∧ matched.Sublist required ∧ missing.Sublist required := by
  unfold find_missing_skills at h
  cases hj : findJob jobs target with
  | none => rw [hj] at h; exact absurd h (by simp)
  | some j =>
    rw [hj] at h
    simp only [Option.some.injEq, Prod.mk.injEq] at h
    obtain ⟨-, hreq, hmat, hmis⟩ := h
    subst hreq
    constructor
    · exact hmat.symm
    constructor
    · exact hmis.symm
    refine ⟨?_, ?_, ?_, ?_⟩
    · intro s
      by_cases hs : s ∈ parse_skills current <;>
        simp [← hmat, ← hmis, List.mem_filter, hs]
    · intro s
      by_cases hs : s ∈ parse_skills current <;>
        simp [← hmat, ← hmis, List.mem_filter, hs]
    · rw [← hmat]; exact List.filter_sublist _
    · rw [← hmis]; exact List.filter_sublist _

/-- C1, witness: the partition property at the spec's scenario 1. -/
theorem find_missing_skills_partition_witness :
    find_missing_skills jobsEx (chars "data analyst") (chars "SQL, Power BI")
      = some (chars "Data Analyst", [chars "sql", chars "excel", chars "python"],
          [chars "sql"], [chars "excel", chars "python"])
    ∧ ([chars "sql"]
        = [chars "sql", chars "excel", chars "python"].filter
            (fun s => s ∈ parse_skills (chars "SQL, Power BI"))
      ∧ [chars "excel", chars "python"]
        = [chars "sql", chars "excel", chars "python"].filter
            (fun s => ¬ s ∈ parse_skills (chars "SQL, Power BI"))
      ∧ (∀ s, s ∈ [chars "sql", chars "excel", chars "python"]
            ↔ (s ∈ [chars "sql"] ∨ s ∈ [chars "excel", chars "python"]))
      ∧ (∀ s, ¬ (s ∈ [chars "sql"] ∧ s ∈ [chars "excel", chars "python"]))
      ∧ List.Sublist [chars "sql"] [chars "sql", chars "excel", chars "python"]
      ∧ List.Sublist [chars "excel", chars "python"]
          [chars "sql", chars "excel", chars "python"]) :=
  ⟨by decide,
    find_missing_skills_partition jobsEx (chars "data analyst")
      (chars "SQL, Power BI") (chars "Data Analyst") _ _ _ (by decide)⟩

/-! ## C2: lookup order (substring model) -/

/-- C2: in the substring model of the lookup, `findJob` returns the first
record (in dataset order) whose lower-cased title equals the lower-cased
target, and only when no such record exists does it return the first
record whose lower-cased title contains the lower-cased target.  The
second conjunct evaluates the model at the query "d.ta": no exact or
substring match, hence no job — whereas the actual code hands the query to
pandas `str.contains`, which compiles it as the regex `d.ta` and matches
"Data Analyst". -/
theorem findJob_lookup_spec :
    (∀ (jobs : List Job) (target : List Char),
      findJob jobs target =
        match jobs.find? (fun j => lowerStr j.title == lowerStr target) with
        | some j => some j
        | none => jobs.find? (fun j => substrOf (lowerStr target) (lowerStr j.title)))
    ∧ findJob jobsEx (chars "d.ta") = none := by
  constructor
  · intro jobs target
    unfold findJob
    cases hfe : jobs.filter (fun j => lowerStr j.title == lowerStr target) with
    | nil =>
      have hfind : jobs.find? (fun j => lowerStr j.title == lowerStr target) = none := by
        rw [← head?_filter, hfe]; rfl
      simp [hfe, hfind, head?_filter]
    | cons a t =>
      have hfind : jobs.find? (fun j => lowerStr j.title == lowerStr target) = some a := by
        rw [← head?_filter, hfe]; rfl
      simp [hfe, hfind]
  · decide

/-! ## C4: when the error payload is returned -/

/-- C4, counterexample: a job whose `Skill Requirements` cell is blank is
found by the exact-match step, yet the handler still returns the
job-not-found error, because it tests the truthiness of the parsed
required-skills list rather than the lookup result. -/
theorem indexPost_error_despite_match_cex :
    findJob jobsBlank (chars "data analyst") = some ⟨chars "Data Analyst", chars " "⟩
    ∧ indexPost jobsBlank [] [] [] (chars "data analyst") (chars "sql") 2 = none := by
  constructor <;> decide

/-- C4, amended: the handler returns the job-not-found error iff the job
lookup fails, or the resolved job's required-skills text parses to the
empty list; in every other case it returns the gap result, the duration
estimate and both course recommendation lists. -/
theorem indexPost_error_iff
    (jobs : List Job) (table : List SkillRow) (pdf : List PCourse) (fdf : List FCourse)
    (target current : List Char) (hpd : ℚ) :
    (indexPost jobs table pdf fdf target current hpd = none
      ↔ findJob jobs target = none
        ∨ ∃ j, findJob jobs target = some j ∧ parse_skills j.reqSkills = [])
    ∧ (∀ title required matched missing,
        find_missing_skills jobs target current = some (title, required, matched, missing) →
        required ≠ [] →
        indexPost jobs table pdf fdf target current hpd
          = some ⟨target, required, matched, missing,
              (calculate_total_duration table missing hpd).1,
              (calculate_total_duration table missing hpd).2, hpd,
              suggest_professional_courses pdf missing 4,
              suggest_foundation_courses fdf missing 4⟩) := by
  constructor
  · cases hj : findJob jobs target with
    | none => simp [indexPost, find_missing_skills, hj]
    | some j =>
      by_cases hreq : parse_skills j.reqSkills = [] <;>
        simp [indexPost, find_missing_skills, hj, hreq, List.isEmpty_iff]
  · intro title required matched missing hfm hne
    simp only [indexPost, hfm]
    rw [if_neg]
    simp [List.isEmpty_iff, hne]

/-- C4, witness for the amended theorem at the spec's scenario 1. -/
theorem indexPost_error_iff_witness :
    find_missing_skills jobsEx (chars "data analyst") (chars "SQL, Power BI")
      = some (chars "Data Analyst", [chars "sql", chars "excel", chars "python"],
          [chars "sql"], [chars "excel", chars "python"])
    ∧ [chars "sql", chars "excel", chars "python"] ≠ ([] : List (List Char))
    ∧ indexPost jobsEx tableEx [] [] (chars "data analyst") (chars "SQL, Power BI") 2
      = some ⟨chars "data analyst",
          [chars "sql", chars "excel", chars "python"],
          [chars "sql"], [chars "excel", chars "python"],
          (calculate_total_duration tableEx [chars "excel", chars "python"] 2).1,
          (calculate_total_duration tableEx [chars "excel", chars "python"] 2).2, 2,
          suggest_professional_courses [] [chars "excel", chars "python"] 4,
          suggest_foundation_courses [] [chars "excel", chars "python"] 4⟩ :=
  ⟨by decide, by decide,
    (indexPost_error_iff jobsEx tableEx [] [] (chars "data analyst")
      (chars "SQL, Power BI") 2).2 (chars "Data Analyst")
      [chars "sql", chars "excel", chars "python"] [chars "sql"]
      [chars "excel", chars "python"] (by decide) (by decide)⟩

/-! ## Duration estimator lemmas -/

lemma durStep_fst (table : List SkillRow) (acc : ℚ × SkillDict) (s : List Char) :
    (durStep table acc s).1 = acc.1 + (lookupHours table s).getD 0 := by
  unfold durStep
  cases h : lookupHours table s <;> simp [h]

lemma durStep_snd (table : List SkillRow) (acc : ℚ × SkillDict) (s : List Char) :
    (durStep table acc s).2 = dictInsert acc.2 s (lookupHours table s) := by
  unfold durStep
  cases h : lookupHours table s <;> simp [h]

lemma foldl_durStep_fst (table : List SkillRow) :
    ∀ (l : List (List Char)) (acc : ℚ × SkillDict),
      (l.foldl (durStep table) acc).1 = acc.1 + totalHours table l := by
  intro l
  induction l with
  | nil => intro acc; simp [totalHours]
  | cons s l ih =>
    intro acc
    rw [List.foldl_cons, ih]
    rw [durStep_fst]
    simp [totalHours]
    ring

lemma calc_fst (table : List SkillRow) (l : List (List Char)) (hpd : ℚ) :
    (calculate_total_duration table l hpd).1
      = round1 (if 0 < hpd then totalHours table l / hpd else totalHours table l) := by
  unfold calculate_total_duration
  simp [foldl_durStep_fst]

lemma find?_map_update (k : List Char) (v : Option ℚ) (d : SkillDict)
    (h : d.any (fun p => p.1 == k) = true) :
    (d.map (fun p => if p.1 == k then (k, v) else p)).find? (fun p => p.1 == k)
      = some (k, v) := by
  rw [List.find?_map]
  have hc : ((fun p : List Char × Option ℚ => p.1 == k)
        ∘ fun p => if p.1 == k then (k, v) else p)
      = (fun p : List Char × Option ℚ => p.1 == k) := by
    funext p
    by_cases hp : (p.1 == k) = true <;> simp [Function.comp, hp]
  rw [hc]
  obtain ⟨p0, hp0mem, hp0⟩ : ∃ p0 ∈ d, (p0.1 == k) = true := by
    simpa using h
  obtain ⟨p1, hp1⟩ : ∃ p1, d.find? (fun p => p.1 == k) = some p1 := by
    rw [← Option.isSome_iff_exists, List.find?_isSome]
    exact ⟨p0, hp0mem, hp0⟩
  have hek : p1.1 = k := by simpa using List.find?_some hp1
  rw [hp1]
  simp [hek]

lemma find?_map_update_other (k k' : List Char) (v : Option ℚ) (hne : k' ≠ k)
    (d : SkillDict) :
    (d.map (fun p => if p.1 == k then (k, v) else p)).find? (fun p => p.1 == k')
      = d.find? (fun p => p.1 == k') := by
  rw [List.find?_map]
  have hc : ((fun p : List Char × Option ℚ => p.1 == k')
        ∘ fun p => if p.1 == k then (k, v) else p)
      = (fun p : List Char × Option ℚ => p.1 == k') := by
    funext p
    by_cases hp : (p.1 == k) = true
    · have hpk : p.1 = k := by simpa using hp
      have h1 : (k == k') = false := by
        simp only [beq_eq_false_iff_ne]
        exact fun hk => hne hk.symm
      have h2 : (p.1 == k') = false := by
        rw [hpk]
        simp only [beq_eq_false_iff_ne]
        exact fun hk => hne hk.symm
      simp [Function.comp, hp, h1, h2]
    · simp [Function.comp, hp]
  rw [hc]
  cases hq : d.find? (fun p => p.1 == k') with
  | none => simp
  | some p1 =>
    have hek : p1.1 = k' := by simpa using List.find?_some hq
    have hp1k : (p1.1 == k) = false := by
      rw [hek]
      simpa only [beq_eq_false_iff_ne] using hne
    simp [hp1k]
    intro h
    exact absurd (hek.symm.trans h) hne

lemma dictFind_dictInsert_self (d : SkillDict) (k : List Char) (v : Option ℚ) :
    dictFind (dictInsert d k v) k = some v := by
  unfold dictInsert dictFind
  by_cases h : d.any (fun p => p.1 == k) = true
  · rw [if_pos h, find?_map_update k v d h]
    rfl
  · rw [if_neg h, List.find?_append]
    have hnone : d.find? (fun p => p.1 == k) = none := by
      rw [List.find?_eq_none]
      intro p hp hb
      exact h (List.any_eq_true.mpr ⟨p, hp, hb⟩)
    simp [hnone, List.find?_cons]

lemma dictFind_dictInsert_other (d : SkillDict) (k k' : List Char) (v : Option ℚ)
    (hne : k' ≠ k) :
    dictFind (dictInsert d k v) k' = dictFind d k' := by
  unfold dictInsert dictFind
  by_cases h : d.any (fun p => p.1 == k) = true
  · rw [if_pos h, find?_map_update_other k k' v hne d]
  · rw [if_neg h, List.find?_append]
    have h1 : (k == k') = false := by
      simp [beq_eq_false_iff_ne]
      exact fun hk => hne hk.symm
    cases hq : d.find? (fun p => p.1 == k') <;> simp [hq, List.find?_cons, h1]

lemma dictFind_foldl_durStep (table : List SkillRow) :
    ∀ (l : List (List Char)) (acc : ℚ × SkillDict) (s : List Char),
      dictFind (l.foldl (durStep table) acc).2 s
        = if s ∈ l then some (lookupHours table s) else dictFind acc.2 s := by
  intro l
  induction l with
  | nil => intro acc s; simp
  | cons a l ih =>
    intro acc s
    rw [List.foldl_cons, ih]
    by_cases hmem : s ∈ l
    · simp [hmem, List.mem_cons]
    · rw [if_neg hmem, durStep_snd]
      by_cases hsa : s = a
      · subst hsa
        rw [dictFind_dictInsert_self]
        simp [List.mem_cons]
      · rw [dictFind_dictInsert_other _ _ _ _ hsa]
        simp [List.mem_cons, hsa, hmem]

lemma dictKeys_dictInsert (d : SkillDict) (k : List Char) (v : Option ℚ) :
    dictKeys (dictInsert d k v)
      = if k ∈ dictKeys d then dictKeys d else dictKeys d ++ [k] := by
  unfold dictInsert dictKeys
  have hmem : (d.any (fun p => p.1 == k) = true) ↔ k ∈ d.map Prod.fst := by
    simp only [List.any_eq_true, List.mem_map]
    constructor
    · rintro ⟨p, hp, hb⟩
      exact ⟨p, hp, by simpa using hb⟩
    · rintro ⟨p, hp, hb⟩
      exact ⟨p, hp, by simpa using hb⟩
  by_cases h : d.any (fun p => p.1 == k) = true
  · rw [if_pos h, if_pos (hmem.mp h)]
    rw [List.map_map]
    apply List.map_congr_left
    intro p _
    by_cases hp : (p.1 == k) = true
    · have : p.1 = k := by simpa using hp
      simp [Function.comp, hp, this]
    · simp [Function.comp, hp]
  · rw [if_neg h, if_neg (fun hk => h (hmem.mpr hk))]
    simp

lemma dictKeys_foldl_mem (table : List SkillRow) :
    ∀ (l : List (List Char)) (acc : ℚ × SkillDict) (s : List Char),
      s ∈ dictKeys (l.foldl (durStep table) acc).2 ↔ s ∈ l ∨ s ∈ dictKeys acc.2 := by
  intro l
  induction l with
  | nil => intro acc s; simp
  | cons a l ih =>
    intro acc s
    rw [List.foldl_cons, ih, durStep_snd, dictKeys_dictInsert]
    by_cases hk : a ∈ dictKeys acc.2
    · rw [if_pos hk]
      constructor
      · rintro (h | h) <;> simp [h, List.mem_cons]
      · rintro (h | h)
        · rcases List.mem_cons.mp h with h' | h'
          · right; exact h' ▸ hk
          · left; exact h'
        · right; exact h
    · rw [if_neg hk]
      simp [List.mem_cons, List.mem_append]
      tauto

lemma dictKeys_foldl_nodup (table : List SkillRow) :
    ∀ (l : List (List Char)) (acc : ℚ × SkillDict),
      (dictKeys acc.2).Nodup → (dictKeys (l.foldl (durStep table) acc).2).Nodup := by
  intro l
  induction l with
  | nil => intro acc h; exact h
  | cons a l ih =>
    intro acc h
    rw [List.foldl_cons]
    apply ih
    rw [durStep_snd, dictKeys_dictInsert]
    by_cases hk : a ∈ dictKeys acc.2
    · rw [if_pos hk]; exact h
    · rw [if_neg hk]
      simpa using List.Nodup.append h (List.nodup_singleton a) (by simpa using hk)

/-! ## Rounding lemmas -/

lemma rndHalfEven_mono {q r : ℚ} (h : q ≤ r) : rndHalfEven q ≤ rndHalfEven r := by
  have hf : ⌊q⌋ ≤ ⌊r⌋ := Int.floor_mono h
  simp only [rndHalfEven]
  rcases lt_or_eq_of_le hf with hlt | heq
  · split_ifs <;> omega
  · rw [← heq]
    have hq : q - (⌊q⌋ : ℚ) ≤ r - (⌊q⌋ : ℚ) := by linarith
    split_ifs <;> first | omega | (exfalso; linarith)

lemma round1_mono {q r : ℚ} (h : q ≤ r) : round1 q ≤ round1 r := by
  unfold round1
  have h10 : q * 10 ≤ r * 10 := by linarith
  have hr := rndHalfEven_mono h10
  have hc : ((rndHalfEven (q * 10) : ℚ)) ≤ ((rndHalfEven (r * 10) : ℚ)) := by
    exact_mod_cast hr
  linarith

/-! ## C3: total duration and the skill-hours dict -/

/-- C3: for every missing-skills list and every `hoursPerDay`,
`calculate_total_duration` returns, as `totalDays`, the sum of the known
hours of the missing skills (unknown skills contributing 0) divided by
`hoursPerDay` when that is positive — else the raw sum — rounded to one
decimal place; and any skill of the list without a case-insensitive
exact-name entry in the duration table is mapped to null (`none`) in the
returned dict. -/
theorem calculate_total_duration_spec
    (table : List SkillRow) (missing : List (List Char)) (hpd : ℚ) :
    (calculate_total_duration table missing hpd).1
      = round1 (if 0 < hpd then totalHours table missing / hpd else totalHours table missing)
    ∧ ∀ s ∈ missing, lookupHours table s = none →
        dictFind (calculate_total_duration table missing hpd).2 s = some none := by
  refine ⟨calc_fst table missing hpd, ?_⟩
  intro s hs hnone
  have h2 : (calculate_total_duration table missing hpd).2
      = (missing.foldl (durStep table) (0, [])).2 := rfl
  rw [h2, dictFind_foldl_durStep, if_pos hs, hnone]

/-- C3, witness: the totals formula at the one-row table `tableSql` with
missing list ["python"], whose single skill has no entry and is mapped to
null. -/
theorem calculate_total_duration_spec_witness :
    (calculate_total_duration tableSql [chars "python"] 2).1
      = round1 (if 0 < (2:ℚ) then totalHours tableSql [chars "python"] / 2
          else totalHours tableSql [chars "python"])
    ∧ dictFind (calculate_total_duration tableSql [chars "python"] 2).2
        (chars "python") = some none :=
  ⟨(calculate_total_duration_spec tableSql [chars "python"] 2).1,
    (calculate_total_duration_spec tableSql [chars "python"] 2).2
      (chars "python") (by decide) (by decide)⟩

/-! ## C8: duration monotonicity -/

/-- C8: with a positive daily budget and non-negative table hours,
appending a skill to the missing list never decreases `totalDays`; and a
skill with no duration entry contributes 0, leaving `totalDays`
unchanged. -/
theorem calculate_total_duration_monotone
    (table : List SkillRow) (l : List (List Char)) (s : List Char) (hpd : ℚ)
    (hpos : 0 < hpd) (hnn : ∀ r ∈ table, 0 ≤ r.hours) :
    (calculate_total_duration table l hpd).1
      ≤ (calculate_total_duration table (l ++ [s]) hpd).1
    ∧ (lookupHours table s = none →
        (calculate_total_duration table (l ++ [s]) hpd).1
          = (calculate_total_duration table l hpd).1) := by
  have htot : totalHours table (l ++ [s])
      = totalHours table l + (lookupHours table s).getD 0 := by
    simp [totalHours]
  have hge : 0 ≤ (lookupHours table s).getD 0 := by
    cases hl : lookupHours table s with
    | none => simp
    | some h =>
      unfold lookupHours at hl
      cases hh : (table.filter (fun r => lowerStr r.name == lowerStr s)).head? with
      | none => rw [hh] at hl; simp at hl
      | some r =>
        rw [hh] at hl
        simp at hl
        have hrmem : r ∈ table.filter (fun r => lowerStr r.name == lowerStr s) :=
          List.mem_of_mem_head? (by rw [hh]; simp)
        have : r ∈ table := List.mem_of_mem_filter hrmem
        rw [← hl] at *
        simpa using hnn r this
  constructor
  · rw [calc_fst, calc_fst, if_pos hpos, if_pos hpos]
    apply round1_mono
    rw [htot]
    apply (div_le_div_iff_of_pos_right hpos).mpr
    linarith
  · intro hnone
    rw [calc_fst, calc_fst, htot, hnone]
    simp

/-- C8, witness: appending the known skill "sql" (10 hours ≥ 0) to the
empty missing list with a 2-hour daily budget. -/
theorem calculate_total_duration_monotone_witness :
    (0:ℚ) < 2 ∧ (∀ r ∈ tableSql, 0 ≤ r.hours)
    ∧ ((calculate_total_duration tableSql [] 2).1
        ≤ (calculate_total_duration tableSql ([] ++ [chars "sql"]) 2).1
      ∧ (lookupHours tableSql (chars "sql") = none →
          (calculate_total_duration tableSql ([] ++ [chars "sql"]) 2).1
            = (calculate_total_duration tableSql [] 2).1)) :=
  ⟨by norm_num, by decide,
    calculate_total_duration_monotone tableSql [] (chars "sql") 2
      (by norm_num) (by decide)⟩

/-! ## C10: duplicate skills in the missing list -/

/-- C10: the running total counts a known skill's hours once per occurrence
(`totalHours` sums over the list, multiplicity included), while the
returned dict has exactly one entry per distinct skill name (keys are
nodup, and are exactly the names occurring in the list); concretely, for
the duplicated list ["sql", "sql"] over a 10-hour table the total used is
20 while the dict is a single entry summing to 10, strictly less. -/
theorem calculate_total_duration_duplicates :
    (∀ (table : List SkillRow) (l : List (List Char)) (hpd : ℚ),
        (calculate_total_duration table l hpd).1
          = round1 (if 0 < hpd then totalHours table l / hpd else totalHours table l)
        ∧ (dictKeys (calculate_total_duration table l hpd).2).Nodup
        ∧ (∀ s, s ∈ dictKeys (calculate_total_duration table l hpd).2 ↔ s ∈ l))
    ∧ totalHours tableSql [chars "sql", chars "sql"] = 20
    ∧ (calculate_total_duration tableSql [chars "sql", chars "sql"] 2).2
        = [(chars "sql", some 10)]
    ∧ dictValuesSum (calculate_total_duration tableSql [chars "sql", chars "sql"] 2).2
        < totalHours tableSql [chars "sql", chars "sql"]
    ∧ (calculate_total_duration tableSql [chars "sql", chars "sql"] 2).1 = 10 := by
  have hlook : lookupHours tableSql (chars "sql") = some 10 := by decide
  have hdict : (calculate_total_duration tableSql [chars "sql", chars "sql"] 2).2
      = [(chars "sql", some 10)] := by decide
  have htot : totalHours tableSql [chars "sql", chars "sql"] = 20 := by
    simp [totalHours, hlook]
    norm_num
  refine ⟨?_, htot, hdict, ?_, ?_⟩
  · intro table l hpd
    refine ⟨calc_fst table l hpd, ?_, ?_⟩
    · exact dictKeys_foldl_nodup table l (0, []) (by simp [dictKeys])
    · intro s
      have h2 : (calculate_total_duration table l hpd).2
          = (l.foldl (durStep table) (0, [])).2 := rfl
      rw [h2, dictKeys_foldl_mem]
      simp [dictKeys]
  · rw [hdict, htot]
    norm_num [dictValuesSum]
  · rw [calc_fst, if_pos (by norm_num : (0:ℚ) < 2), htot]
    norm_num [round1, rndHalfEven]

/-! ## Stable sort lemmas -/

lemma filter_orderedInsert {α : Type} (r : α → α → Prop) [DecidableRel r]
    (p : α → Bool) (a : α) (l : List α)
    (hcomp : ∀ b, p a = true → p b = true → r a b) :
    (l.orderedInsert r a).filter p
      = if p a then a :: l.filter p else l.filter p := by
  have hsplit : l.filter p
      = (l.takeWhile fun b => ¬ r a b).filter p
        ++ (l.dropWhile fun b => ¬ r a b).filter p := by
    rw [← List.filter_append, List.takeWhile_append_dropWhile]
  rw [List.orderedInsert_eq_take_drop, List.filter_append]
  by_cases hpa : p a = true
  · have htake : (l.takeWhile fun b => ¬ r a b).filter p = [] := by
      rw [List.filter_eq_nil_iff]
      intro b hb hpb
      have hcond := List.mem_takeWhile_imp hb
      exact (of_decide_eq_true hcond) (hcomp b hpa hpb)
    rw [hsplit, htake]
    simp [List.filter_cons, hpa]
  · have hpa' : p a = false := by simpa using hpa
    rw [hsplit]
    simp [List.filter_cons, hpa']

lemma filter_insertionSort {α : Type} (r : α → α → Prop) [DecidableRel r]
    (p : α → Bool) (hp : ∀ a b, p a = true → p b = true → r a b) :
    ∀ l : List α, (List.insertionSort r l).filter p = l.filter p := by
  intro l
  induction l with
  | nil => rfl
  | cons a l ih =>
    rw [List.insertionSort, filter_orderedInsert r p a _ (fun b => hp a b)]
    by_cases hpa : p a = true
    · simp [List.filter_cons, hpa, ih]
    · have hpa' : p a = false := by simpa using hpa
      simp [List.filter_cons, hpa', ih]

/-! ## C6: recommendation ordering -/

/-- C6: both recommenders return a prefix (`take limit`) of the stable
descending sort of the scored candidate list; the professional output is
pairwise non-increasing in `total_covered` and the foundation output is
pairwise non-increasing in the lexicographic key `(total_covered, rating)`
(so for positions i < j the key at i is ≥ the key at j); and sorting
leaves the per-key filters of the scored list — hence the original
dataset order among tied courses — unchanged. -/
theorem recommender_sort_spec (pdf : List PCourse) (fdf : List FCourse)
    (missing : List (List Char)) (limit : ℕ) :
    suggest_professional_courses pdf missing limit
      = (List.insertionSort profBefore (scoreProfessional pdf missing)).take limit
    ∧ (suggest_professional_courses pdf missing limit).Pairwise profBefore
    ∧ (∀ k : ℕ,
        (List.insertionSort profBefore (scoreProfessional pdf missing)).filter
            (fun c => c.total_covered = k)
          = (scoreProfessional pdf missing).filter (fun c => c.total_covered = k))
    ∧ suggest_foundation_courses fdf missing limit
      = (List.insertionSort fdnBefore (scoreFoundation fdf missing)).take limit
    ∧ (suggest_foundation_courses fdf missing limit).Pairwise fdnBefore
    ∧ (∀ k : ℕ × ℚ,
        (List.insertionSort fdnBefore (scoreFoundation fdf missing)).filter
            (fun c => fKey c = k)
          = (scoreFoundation fdf missing).filter (fun c => fKey c = k)) := by
  have hp : suggest_professional_courses pdf missing limit
      = (List.insertionSort profBefore (scoreProfessional pdf missing)).take limit := by
    cases missing with
    | nil => simp [suggest_professional_courses, scoreProfessional]
    | cons a l => simp [suggest_professional_courses]
  have hf : suggest_foundation_courses fdf missing limit
      = (List.insertionSort fdnBefore (scoreFoundation fdf missing)).take limit := by
    cases missing with
    | nil => simp [suggest_foundation_courses, scoreFoundation]
    | cons a l => simp [suggest_foundation_courses]
  refine ⟨hp, ?_, ?_, hf, ?_, ?_⟩
  · rw [hp]
    exact List.Pairwise.sublist (List.take_sublist _ _)
      (List.sorted_insertionSort profBefore _)
  · intro k
    apply filter_insertionSort
    intro a b hpa hpb
    have ha : a.total_covered = k := of_decide_eq_true hpa
    have hb : b.total_covered = k := of_decide_eq_true hpb
    unfold profBefore
    rw [ha, hb]
  · rw [hf]
    exact List.Pairwise.sublist (List.take_sublist _ _)
      (List.sorted_insertionSort fdnBefore _)
  · intro k
    apply filter_insertionSort
    intro a b hpa hpb
    have ha : fKey a = k := of_decide_eq_true hpa
    have hb : fKey b = k := of_decide_eq_true hpb
    unfold fdnBefore lexLe
    rw [ha, hb]
    exact Or.inr ⟨rfl, le_refl _⟩

/-! ## C7: recommendation cap and empty input -/

/-- C7: both recommenders return at most `limit` courses, and on an empty
missing-skills list both return `[]` whatever the course dataset is. -/
theorem recommender_cap (pdf : List PCourse) (fdf : List FCourse)
    (missing : List (List Char)) (limit : ℕ) :
    (suggest_professional_courses pdf missing limit).length ≤ limit
    ∧ (suggest_foundation_courses fdf missing limit).length ≤ limit
    ∧ suggest_professional_courses pdf [] limit = []
    ∧ suggest_foundation_courses fdf [] limit = [] := by
  refine ⟨?_, ?_, by simp [suggest_professional_courses], by
    simp [suggest_foundation_courses]⟩
  · unfold suggest_professional_courses
    split
    · simp
    · rw [List.length_take]
      exact min_le_left _ _
  · unfold suggest_foundation_courses
    split
    · simp
    · rw [List.length_take]
      exact min_le_left _ _

/-! ## C9: the coarse filter can admit a zero-coverage course -/

/-- C9: with the one-course dataset `pdfEx` (skills text "PostgreSQL") and
the missing list ["sql"], the course passes the coarse substring filter
("sql" is a substring of "postgresql") yet its precise token set
(["postgresql"]) covers no missing skill, and it is still returned with
`total_covered = 0`. -/
theorem zero_coverage_course_returned :
    suggest_professional_courses pdfEx [chars "sql"] 4
      = [⟨chars "Advanced Databases", chars "link", chars "prov", chars "plat",
          chars "cred", chars "6 weeks", [], 0⟩]
    ∧ substrOf (lowerStr (chars "sql")) (lowerStr (chars "PostgreSQL")) = true
    ∧ parse_skills (chars "PostgreSQL") = [chars "postgresql"]
    ∧ (suggest_professional_courses pdfEx [chars "sql"] 4).any
        (fun c => c.total_covered == 0) = true := by
  refine ⟨by decide, by decide, by decide, by decide⟩

end SkillGap
